import Mathlib

/-!
Verification development for `src/qam_image_generator.js` (QAMImageGenerator).

The JavaScript source is shallowly embedded below.  Numeric values carried by
the program (coordinates, spans, scales) are modelled by exact rationals `ℚ`;
symbol indices and pixel counts by integers `ℤ`; loop indices by `ℕ`.  The
`n - 1 | 0` coercion of the source is modelled exactly as 32-bit two's
complement reduction (`toInt32`).  JavaScript's `%` on integer values keeps the
sign of the dividend, hence `Int.tmod`; `Math.floor` of an exact quotient is
`Int.fdiv` (for 32-bit operands the double division rounds to a value whose
floor agrees with the exact floor).  The host canvas is modelled by the data it
receives: logical (CSS) size, backing-store size, installed transform, and the
list of path-construction commands issued between `beginPath` and `stroke`.
-/

namespace QAM

/-- Configuration record: the `options` object of the constructor
(fields `N`, `PAD`, `shift`, `lineWidth`, `lineColor`, `H_FIXED`,
`PIXEL_MARGIN`). -/
structure Config where
  N : ℤ
  PAD : ℚ
  shift : ℚ
  lineWidth : ℚ
  lineColor : String
  H_FIXED : ℚ
  PIXEL_MARGIN : ℚ
deriving Repr, DecidableEq

/-- Default options installed by the constructor:
`{ N: 4, PAD: 2, shift: 1.0, lineWidth: 2, lineColor: "#00e5ff",
H_FIXED: 256, PIXEL_MARGIN: 24 }`. -/
def defaultConfig : Config :=
  ⟨4, 2, 1, 2, "#00e5ff", 256, 24⟩

/-- The default configuration with `PAD` raised from 2 to 3 and every other
field unchanged, as produced by `setOptions({PAD: 3})`. -/
def padThreeConfig : Config :=
  ⟨4, 3, 1, 2, "#00e5ff", 256, 24⟩

/-- Result of `_rc`: a row/column pair in the constellation grid. -/
structure RC where
  row : ℤ
  col : ℤ
deriving Repr, DecidableEq

/-- ECMAScript ToInt32: reduction of an integer to 32-bit two's complement,
as performed by the `| 0` in `const z = n - 1 | 0`. -/
def toInt32 (z : ℤ) : ℤ :=
  (z + 2147483648) % 4294967296 - 2147483648

/-- Model of `_rc(n)`: `const z = n - 1 | 0;
return { row: Math.floor(z / N), col: z % N }`.  JS `%` keeps the sign of the
dividend (`Int.tmod`); `Math.floor` of the quotient is floor division
(`Int.fdiv`). -/
def rc (cfg : Config) (n : ℤ) : RC :=
  let z := toInt32 (n - 1)
  ⟨z.fdiv cfg.N, z.tmod cfg.N⟩

/-- Model of `_clamp(v, a, b) = Math.min(Math.max(v, a), b)`. -/
def clamp (v a b : ℚ) : ℚ :=
  min (max v a) b

/-- Indexed map: model of a `for (let i = 0; ...)` loop that pushes one value
per element, carrying the loop counter. -/
def mapWithIndex {α β : Type} (f : ℕ → α → β) : ℕ → List α → List β
  | _, [] => []
  | i, a :: t => f i a :: mapWithIndex f (i + 1) t

/-- The horizontal grid-unit coordinate computed for the element at 0-based
loop index `i` in both `_spanX` and `_drawPolyline`:
`s = ((i + 1) / 4) * shift; x = (col + 0.5) + s`. -/
def xSym (cfg : Config) (i : ℕ) (n : ℤ) : ℚ :=
  let s := (((i : ℚ) + 1) / 4) * cfg.shift
  (((rc cfg n).col : ℚ) + 1/2) + s

/-- The list of horizontal grid-unit coordinates of a sequence, in order. -/
def xsOf (cfg : Config) (seq : List ℤ) : List ℚ :=
  mapWithIndex (fun i n => xSym cfg i n) 0 seq

/-- One iteration of the `_spanX` loop body acting on the accumulator
`(minX, maxX)`: `if (x < minX) minX = x; if (x > maxX) maxX = x`.  The
accumulator starts at `(Infinity, -Infinity)`, modelled by `(⊤, ⊥)`. -/
def spanFold (acc : WithTop ℚ × WithBot ℚ) (x : ℚ) : WithTop ℚ × WithBot ℚ :=
  (if (x : WithTop ℚ) < acc.1 then (x : WithTop ℚ) else acc.1,
   if acc.2 < (x : WithBot ℚ) then (x : WithBot ℚ) else acc.2)

/-- Model of `_spanX(seq)`: returns `{min: 0.5, max: 0.5}` for an empty (or
absent) sequence, otherwise folds the loop body over the per-element
coordinates starting from `(Infinity, -Infinity)`.  For a non-empty sequence
the accumulator is finite, so the defaults of `untop'`/`unbot'` are never
used. -/
def spanX (cfg : Config) (seq : List ℤ) : ℚ × ℚ :=
  if seq.isEmpty then (1/2, 1/2)
  else
    let r := (xsOf cfg seq).foldl spanFold (⊤, ⊥)
    (r.1.untop' 0, r.2.unbot' 0)

/-- The vertical scale of `_chooseCanvasSize` and `_drawPolyline`:
`step = (H - 2 * PIXEL_MARGIN) / (N + PAD * 2)` (pixels per constellation
unit), where `H` is the height in use (`H_FIXED` when sizing, `state.height`
when drawing). -/
def stepOf (cfg : Config) (h : ℚ) : ℚ :=
  (h - 2 * cfg.PIXEL_MARGIN) / ((cfg.N : ℚ) + cfg.PAD * 2)

/-- The horizontal unit span of `_chooseCanvasSize`:
`symSpanX = Math.max(1e-6, (sp.max - sp.min) + PAD * 2)`. -/
def symSpanXOf (cfg : Config) (seq : List ℤ) : ℚ :=
  max (1/1000000) (((spanX cfg seq).2 - (spanX cfg seq).1) + cfg.PAD * 2)

/-- Logical surface size held in `this.state`. -/
structure RenderState where
  width : ℤ
  height : ℚ
deriving Repr, DecidableEq

/-- Model of `_chooseCanvasSize(seq)`:
`W = 2 * PIXEL_MARGIN + step * symSpanX; state.width = Math.ceil(W);
state.height = H_FIXED`. -/
def chooseCanvasSize (cfg : Config) (seq : List ℤ) : RenderState :=
  ⟨⌈2 * cfg.PIXEL_MARGIN + stepOf cfg cfg.H_FIXED * symSpanXOf cfg seq⌉,
   cfg.H_FIXED⟩

/-- A pixel coordinate, as pushed onto `pts` by `_drawPolyline`. -/
structure Point where
  x : ℚ
  y : ℚ
deriving Repr, DecidableEq

/-- Midpoint of two points: `xc = (p.x + q.x) / 2; yc = (p.y + q.y) / 2`. -/
def mid (p q : Point) : Point :=
  ⟨(p.x + q.x) / 2, (p.y + q.y) / 2⟩

/-- The mapped pixel points of `_drawPolyline` (the `pts` array):
`x = PIXEL_MARGIN + step * ((xSym - sp.min) + PAD);
y = PIXEL_MARGIN + step * (PAD + row + 0.5)`, where `step` is computed from
`this.state.height` (the `h` argument here). -/
def pointsOf (cfg : Config) (h : ℚ) (seq : List ℤ) : List Point :=
  mapWithIndex
    (fun i n =>
      ⟨cfg.PIXEL_MARGIN +
         stepOf cfg h * ((xSym cfg i n - (spanX cfg seq).1) + cfg.PAD),
       cfg.PIXEL_MARGIN +
         stepOf cfg h * (cfg.PAD + ((rc cfg n).row : ℚ) + 1/2)⟩)
    0 seq

/-- One path-construction command issued on the 2D context. -/
inductive Seg where
  | move (p : Point)
  | quad (ctrl stop : Point)
deriving Repr, DecidableEq

/-- The quadratic segments issued by the smoothing loop
`for (let i = 1; i < pts.length - 2; i++)`: for each such `i`,
`quadraticCurveTo(pts[i], midpoint(pts[i], pts[i+1]))`.  The loop visits
`i = 1, ..., pts.length - 3`. -/
def midSegs (pts : List Point) : List Seg :=
  (List.range' 1 (pts.length - 3)).map fun i =>
    Seg.quad (pts.getD i ⟨0, 0⟩)
      (mid (pts.getD i ⟨0, 0⟩) (pts.getD (i + 1) ⟨0, 0⟩))

/-- The full command list of the stroked path for a point list of length ≥ 2:
`moveTo(pts[0])`, the smoothing loop, then the final
`quadraticCurveTo(pts[pts.length - 2], pts[pts.length - 1])`. -/
def buildPathPts (pts : List Point) : List Seg :=
  Seg.move (pts.getD 0 ⟨0, 0⟩) ::
    (midSegs pts ++
      [Seg.quad (pts.getD (pts.length - 2) ⟨0, 0⟩)
        (pts.getD (pts.length - 1) ⟨0, 0⟩)])

/-- The path drawn by `_drawPolyline`: after clearing and filling the
background it returns early when `seq.length < 2` (no path commands),
otherwise it strokes the path built over the mapped points. -/
def pathOf (cfg : Config) (h : ℚ) (seq : List ℤ) : List Seg :=
  if seq.length < 2 then []
  else buildPathPts (pointsOf cfg h seq)

/-- JavaScript `r || 1` applied to the host-reported device pixel ratio:
`1` when the host reports nothing (`none`) and when the reported value is the
falsy number `0`. -/
def jsOrOne (r : Option ℚ) : ℚ :=
  match r with
  | none => 1
  | some v => if v = 0 then 1 else v

/-- Model of `_syncDPR()`:
`this.dpr = Math.max(1, global.devicePixelRatio || 1)`. -/
def syncDPR (hostDPR : Option ℚ) : ℚ :=
  max 1 (jsOrOne hostDPR)

/-- Observable effect of `_setupCanvas` on the host canvas: logical (CSS)
size, backing-store resolution, and the installed uniform scale transform. -/
structure Surface where
  styleWidth : ℤ
  styleHeight : ℚ
  backingWidth : ℤ
  backingHeight : ℤ
  transform : ℚ
deriving Repr, DecidableEq

/-- Model of `_setupCanvas()`: re-syncs the device pixel ratio, sets
`canvas.style` to the logical size, the backing store to
`Math.floor(width * dpr) × Math.floor(height * dpr)`, and installs
`setTransform(dpr, 0, 0, dpr, 0, 0)`. -/
def setupCanvas (st : RenderState) (hostDPR : Option ℚ) : Surface :=
  let dpr := syncDPR hostDPR
  ⟨st.width, st.height, ⌊(st.width : ℚ) * dpr⌋, ⌊st.height * dpr⌋, dpr⟩

/-- Everything observable about one `render(seq)` call. -/
structure RenderResult where
  state : RenderState
  surface : Surface
  path : List Seg
deriving Repr, DecidableEq

/-- Model of `render(seq)`:
`this._chooseCanvasSize(seq); this._setupCanvas(); this._drawPolyline(seq)`.
The host-reported device pixel ratio at call time is `hostDPR`. -/
def renderFull (cfg : Config) (seq : List ℤ) (hostDPR : Option ℚ) :
    RenderResult :=
  let st := chooseCanvasSize cfg seq
  ⟨st, setupCanvas st hostDPR, pathOf cfg st.height seq⟩

/-!
Helper lemmas about the indexed map and about the min/max folds of `_spanX`.
-/

lemma mapWithIndex_length {α β : Type} (f : ℕ → α → β) (k : ℕ) (l : List α) :
    (mapWithIndex f k l).length = l.length := by
  induction l generalizing k with
  | nil => rfl
  | cons a t ih => simp [mapWithIndex, ih]

lemma mapWithIndex_getD {α β : Type} (f : ℕ → α → β) (k : ℕ) (l : List α)
    (i : ℕ) (hi : i < l.length) (d : β) (da : α) :
    (mapWithIndex f k l).getD i d = f (k + i) (l.getD i da) := by
  induction l generalizing k i with
  | nil => simp at hi
  | cons a t ih =>
    cases i with
    | zero => simp [mapWithIndex]
    | succ j =>
      simp only [mapWithIndex, List.getD_cons_succ]
      rw [ih (k + 1) j (by simpa using hi)]
      congr 1
      omega

lemma map_mapWithIndex {α β γ : Type} (f : ℕ → α → β) (g : β → γ) (k : ℕ)
    (l : List α) :
    (mapWithIndex f k l).map g = mapWithIndex (fun i a => g (f i a)) k l := by
  induction l generalizing k with
  | nil => rfl
  | cons a t ih => simp [mapWithIndex, ih]

lemma foldl_min_le_init {α : Type} [LinearOrder α] (l : List α) (a : α) :
    l.foldl min a ≤ a := by
  induction l generalizing a with
  | nil => exact le_refl a
  | cons x t ih => exact le_trans (ih (min a x)) (min_le_left a x)

lemma foldl_min_le_mem {α : Type} [LinearOrder α] (l : List α) (a x : α)
    (hx : x ∈ l) : l.foldl min a ≤ x := by
  induction l generalizing a with
  | nil => simp at hx
  | cons y t ih =>
    rcases List.mem_cons.1 hx with h | h
    · subst h
      exact le_trans (foldl_min_le_init t (min a x)) (min_le_right a x)
    · exact ih (min a y) h

lemma foldl_min_mem {α : Type} [LinearOrder α] (l : List α) (a : α) :
    l.foldl min a = a ∨ l.foldl min a ∈ l := by
  induction l generalizing a with
  | nil => left; rfl
  | cons y t ih =>
    rcases ih (min a y) with h | h
    · rcases min_choice a y with hm | hm
      · left; rw [List.foldl_cons, h, hm]
      · right; rw [List.foldl_cons, h, hm]; exact List.mem_cons_self y t
    · right; exact List.mem_cons_of_mem y h

lemma le_foldl_max_init {α : Type} [LinearOrder α] (l : List α) (a : α) :
    a ≤ l.foldl max a := by
  induction l generalizing a with
  | nil => exact le_refl a
  | cons x t ih => exact le_trans (le_max_left a x) (ih (max a x))

lemma le_foldl_max_mem {α : Type} [LinearOrder α] (l : List α) (a x : α)
    (hx : x ∈ l) : x ≤ l.foldl max a := by
  induction l generalizing a with
  | nil => simp at hx
  | cons y t ih =>
    rcases List.mem_cons.1 hx with h | h
    · subst h
      exact le_trans (le_max_right a x) (le_foldl_max_init t (max a x))
    · exact ih (max a y) h

lemma foldl_max_mem {α : Type} [LinearOrder α] (l : List α) (a : α) :
    l.foldl max a = a ∨ l.foldl max a ∈ l := by
  induction l generalizing a with
  | nil => left; rfl
  | cons y t ih =>
    rcases ih (max a y) with h | h
    · rcases max_choice a y with hm | hm
      · left; rw [List.foldl_cons, h, hm]
      · right; rw [List.foldl_cons, h, hm]; exact List.mem_cons_self y t
    · right; exact List.mem_cons_of_mem y h

lemma spanFold_eq (acc : WithTop ℚ × WithBot ℚ) (x : ℚ) :
    spanFold acc x = (min acc.1 (x : WithTop ℚ), max acc.2 (x : WithBot ℚ)) := by
  unfold spanFold
  refine Prod.ext ?_ ?_
  · rcases lt_or_le (x : WithTop ℚ) acc.1 with h | h
    · simp [if_pos h, min_eq_right h.le]
    · simp [if_neg (not_lt.2 h), min_eq_left h]
  · rcases lt_or_le acc.2 (x : WithBot ℚ) with h | h
    · simp [if_pos h, max_eq_right h.le]
    · simp [if_neg (not_lt.2 h), max_eq_left h]

lemma foldl_spanFold_coe (t : List ℚ) (a b : ℚ) :
    t.foldl spanFold ((a : WithTop ℚ), (b : WithBot ℚ)) =
      (((t.foldl min a : ℚ) : WithTop ℚ), ((t.foldl max b : ℚ) : WithBot ℚ)) := by
  induction t generalizing a b with
  | nil => rfl
  | cons x s ih =>
    rw [List.foldl_cons, spanFold_eq, List.foldl_cons, List.foldl_cons,
      ← WithTop.coe_min, ← WithBot.coe_max]
    exact ih (min a x) (max b x)

lemma spanX_cons_eq (cfg : Config) (s : ℤ) (u : List ℤ) :
    spanX cfg (s :: u) =
      ((mapWithIndex (fun i n => xSym cfg i n) 1 u).foldl min (xSym cfg 0 s),
       (mapWithIndex (fun i n => xSym cfg i n) 1 u).foldl max (xSym cfg 0 s)) := by
  unfold spanX
  rw [if_neg (by simp)]
  show ((((xsOf cfg (s :: u)).foldl spanFold (⊤, ⊥)).1.untop' 0),
      (((xsOf cfg (s :: u)).foldl spanFold (⊤, ⊥)).2.unbot' 0)) = _
  have hx : xsOf cfg (s :: u) =
      xSym cfg 0 s :: mapWithIndex (fun i n => xSym cfg i n) 1 u := rfl
  rw [hx, List.foldl_cons, spanFold_eq]
  rw [min_eq_right (le_top (a := (xSym cfg 0 s : WithTop ℚ))),
    max_eq_right (bot_le (a := (xSym cfg 0 s : WithBot ℚ)))]
  rw [foldl_spanFold_coe]
  rfl

lemma spanX_eq_foldl (cfg : Config) (seq : List ℤ) (hne : seq ≠ []) :
    ∃ x t, xsOf cfg seq = x :: t ∧
      spanX cfg seq = (t.foldl min x, t.foldl max x) := by
  obtain ⟨s, u, rfl⟩ := List.exists_cons_of_ne_nil hne
  exact ⟨xSym cfg 0 s, mapWithIndex (fun i n => xSym cfg i n) 1 u, rfl,
    spanX_cons_eq cfg s u⟩

/-- Shared characterization of `_spanX` on a non-empty sequence: its first
component is the least element of the coordinate list and its second the
greatest, both attained. -/
lemma spanX_spec (cfg : Config) (seq : List ℤ) (hne : seq ≠ []) :
    ((spanX cfg seq).1 ∈ xsOf cfg seq ∧
      ∀ x ∈ xsOf cfg seq, (spanX cfg seq).1 ≤ x) ∧
    ((spanX cfg seq).2 ∈ xsOf cfg seq ∧
      ∀ x ∈ xsOf cfg seq, x ≤ (spanX cfg seq).2) := by
  obtain ⟨x, t, hxs, hspan⟩ := spanX_eq_foldl cfg seq hne
  rw [hxs, hspan]
  refine ⟨⟨?_, ?_⟩, ?_, ?_⟩
  · rcases foldl_min_mem t x with h | h
    · rw [h]; exact List.mem_cons_self x t
    · exact List.mem_cons_of_mem x h
  · intro y hy
    rcases List.mem_cons.1 hy with h | h
    · rw [h]; exact foldl_min_le_init t x
    · exact foldl_min_le_mem t x y h
  · rcases foldl_max_mem t x with h | h
    · rw [h]; exact List.mem_cons_self x t
    · exact List.mem_cons_of_mem x h
  · intro y hy
    rcases List.mem_cons.1 hy with h | h
    · rw [h]; exact le_foldl_max_init t x
    · exact le_foldl_max_mem t x y h

/-- Changing only `PAD` does not change `_spanX`: the span reads only `N`
(through `_rc`) and `shift`. -/
lemma spanX_set_PAD (cfg : Config) (p : ℚ) (seq : List ℤ) :
    spanX {cfg with PAD := p} seq = spanX cfg seq := rfl

/-- The width computed by `_chooseCanvasSize` after overriding `PAD`,
spelled out. -/
lemma chooseCanvasSize_set_PAD_width (cfg : Config) (p : ℚ) (seq : List ℤ) :
    (chooseCanvasSize {cfg with PAD := p} seq).width =
      ⌈2 * cfg.PIXEL_MARGIN +
        ((cfg.H_FIXED - 2 * cfg.PIXEL_MARGIN) / ((cfg.N : ℚ) + p * 2)) *
          max (1/1000000)
            (((spanX cfg seq).2 - (spanX cfg seq).1) + p * 2)⌉ := rfl

/-- The x-components of the mapped points, as a map over the grid-unit
coordinate list of `_spanX`: both loops compute the identical per-point
formula. -/
lemma pointsOf_map_x (cfg : Config) (h : ℚ) (seq : List ℤ) :
    (pointsOf cfg h seq).map Point.x =
      (xsOf cfg seq).map
        (fun v =>
          cfg.PIXEL_MARGIN +
            stepOf cfg h * ((v - (spanX cfg seq).1) + cfg.PAD)) := by
  rw [pointsOf, map_mapWithIndex, xsOf, map_mapWithIndex]

/-- The last element of a path of shape `move :: (segs ++ [final])`. -/
lemma getLast_cons_append_singleton (a b : Seg) (l : List Seg) :
    (a :: (l ++ [b])).getLast? = some b := by
  rw [← List.cons_append, List.getLast?_concat]

/-- When the `seq.length < 2` guard of `_drawPolyline` does not fire, the
path is the one built over the mapped points. -/
lemma pathOf_eq (cfg : Config) (h : ℚ) (seq : List ℤ)
    (hg : ¬ seq.length < 2) :
    pathOf cfg h seq = buildPathPts (pointsOf cfg h seq) := if_neg hg

/-!
Evaluation lemmas for the default configuration, used by the concrete
scenarios below.
-/

lemma defaultConfig_N : defaultConfig.N = 4 := rfl

lemma defaultConfig_PAD : defaultConfig.PAD = 2 := rfl

lemma defaultConfig_shift : defaultConfig.shift = 1 := rfl

lemma defaultConfig_H : defaultConfig.H_FIXED = 256 := rfl

lemma defaultConfig_margin : defaultConfig.PIXEL_MARGIN = 24 := rfl

lemma padThreeConfig_N : padThreeConfig.N = 4 := rfl

lemma padThreeConfig_PAD : padThreeConfig.PAD = 3 := rfl

lemma padThreeConfig_H : padThreeConfig.H_FIXED = 256 := rfl

lemma padThreeConfig_margin : padThreeConfig.PIXEL_MARGIN = 24 := rfl

lemma rc_default_one : rc defaultConfig 1 = ⟨0, 0⟩ := by decide

lemma rc_default_two : rc defaultConfig 2 = ⟨0, 1⟩ := by decide

lemma rc_default_three : rc defaultConfig 3 = ⟨0, 2⟩ := by decide

lemma rc_default_four : rc defaultConfig 4 = ⟨0, 3⟩ := by decide

/-- The span ignores `PAD`, so the PAD-3 variant of the default
configuration has the same span as the default one. -/
lemma spanX_padThree (seq : List ℤ) :
    spanX padThreeConfig seq = spanX defaultConfig seq := rfl

lemma spanX_default_one : spanX defaultConfig [1] = (3/4, 3/4) := by
  rw [spanX_cons_eq]
  norm_num [mapWithIndex, xSym, rc_default_one, defaultConfig_shift]

lemma spanX_default_oneone : spanX defaultConfig [1, 1] = (3/4, 1) := by
  rw [spanX_cons_eq]
  norm_num [mapWithIndex, xSym, rc_default_one, defaultConfig_shift,
    min_def, max_def]

lemma spanX_default_123 : spanX defaultConfig [1, 2, 3] = (3/4, 13/4) := by
  rw [spanX_cons_eq]
  norm_num [mapWithIndex, xSym, rc_default_one, rc_default_two,
    rc_default_three, defaultConfig_shift, min_def, max_def]

lemma spanX_default_c1 :
    spanX defaultConfig [1, 1, 1, 1, 1, 4] = (3/4, 5) := by
  rw [spanX_cons_eq]
  norm_num [mapWithIndex, xSym, rc_default_one, rc_default_four,
    defaultConfig_shift, min_def, max_def]

/-!
Claim theorems.
-/

/-- C4, counterexample.  The claim states that for EVERY integer symbol index
the decoder computes `z = index - 1` and `row = floor(z / N)`.  The source
computes `const z = n - 1 | 0`, which first reduces `n - 1` to 32-bit two's
complement: at `n = 2147483649` (with the default `N = 4`) the code produces
`row = -536870912`, while `floor((n - 1) / N) = 536870912`. -/
theorem C4_counterexample :
    rc defaultConfig 2147483649 = ⟨-536870912, 0⟩ ∧
    Int.fdiv (2147483649 - 1) defaultConfig.N = 536870912 ∧
    ¬ (rc defaultConfig 2147483649).row =
        Int.fdiv (2147483649 - 1) defaultConfig.N := by
  decide

/-- C4, amended.  For every integer symbol index `n` with `n - 1` inside the
signed 32-bit range (and a positive grid size `N`), grid decoding computes
`z = n - 1`, `row = floor(z / N)` and `col = z % N` with JavaScript's
remainder (sign of the dividend); indices outside `1..N²` wrap via this
arithmetic rather than failing, and decoding always yields a row/column
pair. -/
theorem C4_rc_amended (cfg : Config) (n : ℤ)
    (h₁ : -2147483648 ≤ n - 1) (h₂ : n - 1 < 2147483648) (hN : 0 < cfg.N) :
    rc cfg n = ⟨(n - 1).fdiv cfg.N, (n - 1).tmod cfg.N⟩ := by
  have ht : toInt32 (n - 1) = n - 1 := by
    unfold toInt32
    rw [Int.emod_eq_of_lt (by omega) (by omega)]
    omega
  simp [rc, ht]

/-- C4, witness: the in-range index 5 decodes to row 1, column 0 by the
amended formulas. -/
theorem C4_rc_witness :
    rc defaultConfig 5 =
      ⟨Int.fdiv (5 - 1) defaultConfig.N, Int.tmod (5 - 1) defaultConfig.N⟩ :=
  C4_rc_amended defaultConfig 5 (by decide) (by decide) (by decide)

/-- C5: `_spanX` returns `{min: 0.5, max: 0.5}` on the empty sequence, the
per-element coordinate at 0-based position `i` is
`(col + 0.5) + ((i + 1) / 4) * shift` (1-based position divided by 4), and on
a non-empty sequence the result is exactly the minimum and maximum of those
coordinates. -/
theorem C5_span_spec (cfg : Config) (seq : List ℤ) :
    (seq = [] → spanX cfg seq = (1/2, 1/2)) ∧
    (∀ i, i < seq.length →
      (xsOf cfg seq).getD i 0 =
        (((rc cfg (seq.getD i 0)).col : ℚ) + 1/2) +
          (((i : ℚ) + 1) / 4) * cfg.shift) ∧
    (seq ≠ [] →
      (xsOf cfg seq).minimum = ((spanX cfg seq).1 : WithTop ℚ) ∧
      (xsOf cfg seq).maximum = ((spanX cfg seq).2 : WithBot ℚ)) := by
  refine ⟨?_, ?_, ?_⟩
  · intro h; subst h; rfl
  · intro i hi
    rw [xsOf, mapWithIndex_getD _ 0 seq i hi 0 0]
    simp [xSym]
  · intro hne
    have h := spanX_spec cfg seq hne
    exact ⟨List.minimum_eq_coe_iff.2 ⟨h.1.1, h.1.2⟩,
      List.maximum_eq_coe_iff.2 ⟨h.2.1, h.2.2⟩⟩

/-- C5, witness: the empty sequence yields the default span. -/
theorem C5_span_witness : spanX defaultConfig [] = (1/2, 1/2) :=
  (C5_span_spec defaultConfig []).1 rfl

/-- C6: the sizing step always sets `height = H_FIXED` and
`width = ceil(2 * margin + step * symSpanX)` with
`step = (H_FIXED - 2 * margin) / (N + 2 * PAD)` and
`symSpanX = max(1e-6, (span.max - span.min) + 2 * PAD)`. -/
theorem C6_size_formula (cfg : Config) (seq : List ℤ) :
    chooseCanvasSize cfg seq =
      ⟨⌈2 * cfg.PIXEL_MARGIN +
          ((cfg.H_FIXED - 2 * cfg.PIXEL_MARGIN) /
              ((cfg.N : ℚ) + 2 * cfg.PAD)) *
            max (1/1000000)
              (((spanX cfg seq).2 - (spanX cfg seq).1) + 2 * cfg.PAD)⌉,
        cfg.H_FIXED⟩ := by
  simp only [chooseCanvasSize, stepOf, symSpanXOf, mul_comm cfg.PAD 2]

/-- C7: with the default configuration (`N = 4`, `PAD = 2`, `shift = 1`,
`margin = 24`, `height = 256`), `step = 26`; rendering `[1]` computes logical
width 152, and rendering the empty sequence also computes width 152 with no
path drawn. -/
theorem C7_concrete_scenarios :
    stepOf defaultConfig 256 = 26 ∧
    (renderFull defaultConfig [1] none).state.width = 152 ∧
    (renderFull defaultConfig [] none).state.width = 152 ∧
    (renderFull defaultConfig [] none).path = [] := by
  refine ⟨?_, ?_, ?_, ?_⟩ <;>
    norm_num [renderFull, setupCanvas, syncDPR, jsOrOne, pathOf, buildPathPts,
      midSegs, pointsOf, chooseCanvasSize, stepOf, symSpanXOf, spanX, xsOf,
      mapWithIndex, xSym, rc, toInt32, spanFold, mid, defaultConfig,
      WithTop.untop', WithBot.unbot']

/-- C8: for every configuration, sequence and host-reported device pixel
ratio, the logical height after a render equals the configured fixed height,
both in the render state and on the surface's CSS size. -/
theorem C8_height_invariant (cfg : Config) (seq : List ℤ)
    (hostDPR : Option ℚ) :
    (renderFull cfg seq hostDPR).state.height = cfg.H_FIXED ∧
    (renderFull cfg seq hostDPR).surface.styleHeight = cfg.H_FIXED :=
  ⟨rfl, rfl⟩

/-- C1, counterexample.  The claim asserts that for every non-empty sequence
the computed width is non-decreasing in `PAD`.  For the non-empty sequence
`[1,1,1,1,1,4]` (span extent 4.25, larger than `N = 4`) the default
configuration (`PAD = 2`) gives width 263 while raising `PAD` to 3 gives
width 262: the width strictly decreases as `PAD` increases. -/
theorem C1_counterexample :
    defaultConfig.PAD < padThreeConfig.PAD ∧
    (chooseCanvasSize defaultConfig [1, 1, 1, 1, 1, 4]).width = 263 ∧
    (chooseCanvasSize padThreeConfig [1, 1, 1, 1, 1, 4]).width = 262 ∧
    ¬ (chooseCanvasSize defaultConfig [1, 1, 1, 1, 1, 4]).width ≤
        (chooseCanvasSize padThreeConfig [1, 1, 1, 1, 1, 4]).width := by
  have w2 : (chooseCanvasSize defaultConfig [1, 1, 1, 1, 1, 4]).width = 263 := by
    norm_num [chooseCanvasSize, stepOf, symSpanXOf, spanX_default_c1,
      defaultConfig_N, defaultConfig_PAD, defaultConfig_H,
      defaultConfig_margin, Int.ceil_eq_iff]
  have w3 : (chooseCanvasSize padThreeConfig [1, 1, 1, 1, 1, 4]).width = 262 := by
    norm_num [chooseCanvasSize, stepOf, symSpanXOf, spanX_default_c1,
      spanX_padThree, padThreeConfig_N, padThreeConfig_PAD,
      padThreeConfig_H, padThreeConfig_margin, Int.ceil_eq_iff]
  refine ⟨by norm_num [defaultConfig_PAD, padThreeConfig_PAD], w2, w3, ?_⟩
  rw [w2, w3]
  norm_num

/-- C1, amended.  With the configuration otherwise fixed, the computed width
is monotonically non-decreasing as `PAD` increases provided the span extent
of the (non-empty) sequence is at most `N`; the hypotheses also record the
spec's standing assumptions (non-negative interior height, positive vertical
unit count, epsilon floor inactive at the smaller pad).  Without the
extent-at-most-`N` condition, the width can decrease (see the
counterexample). -/
theorem C1_pad_monotone_amended (cfg : Config) (p₁ p₂ : ℚ) (seq : List ℤ)
    (hne : seq ≠ []) (hp : p₁ ≤ p₂)
    (hd : 0 < (cfg.N : ℚ) + p₁ * 2)
    (hI : 0 ≤ cfg.H_FIXED - 2 * cfg.PIXEL_MARGIN)
    (heps : 1/1000000 ≤ ((spanX cfg seq).2 - (spanX cfg seq).1) + p₁ * 2)
    (hext : (spanX cfg seq).2 - (spanX cfg seq).1 ≤ (cfg.N : ℚ)) :
    (chooseCanvasSize {cfg with PAD := p₁} seq).width ≤
      (chooseCanvasSize {cfg with PAD := p₂} seq).width := by
  rw [chooseCanvasSize_set_PAD_width, chooseCanvasSize_set_PAD_width]
  apply Int.ceil_le_ceil
  have hd2 : 0 < (cfg.N : ℚ) + p₂ * 2 := by linarith
  have heps2 :
      1/1000000 ≤ ((spanX cfg seq).2 - (spanX cfg seq).1) + p₂ * 2 := by
    linarith
  rw [max_eq_right heps, max_eq_right heps2]
  have key :
      (((spanX cfg seq).2 - (spanX cfg seq).1) + p₁ * 2) /
          ((cfg.N : ℚ) + p₁ * 2) ≤
        (((spanX cfg seq).2 - (spanX cfg seq).1) + p₂ * 2) /
          ((cfg.N : ℚ) + p₂ * 2) := by
    rw [div_le_div_iff hd hd2]
    nlinarith [mul_nonneg (sub_nonneg.2 hp) (sub_nonneg.2 hext)]
  have e1 :
      (cfg.H_FIXED - 2 * cfg.PIXEL_MARGIN) / ((cfg.N : ℚ) + p₁ * 2) *
          (((spanX cfg seq).2 - (spanX cfg seq).1) + p₁ * 2) =
        (cfg.H_FIXED - 2 * cfg.PIXEL_MARGIN) *
          ((((spanX cfg seq).2 - (spanX cfg seq).1) + p₁ * 2) /
            ((cfg.N : ℚ) + p₁ * 2)) := by
    ring
  have e2 :
      (cfg.H_FIXED - 2 * cfg.PIXEL_MARGIN) / ((cfg.N : ℚ) + p₂ * 2) *
          (((spanX cfg seq).2 - (spanX cfg seq).1) + p₂ * 2) =
        (cfg.H_FIXED - 2 * cfg.PIXEL_MARGIN) *
          ((((spanX cfg seq).2 - (spanX cfg seq).1) + p₂ * 2) /
            ((cfg.N : ℚ) + p₂ * 2)) := by
    ring
  rw [e1, e2]
  have hm := mul_le_mul_of_nonneg_left key hI
  linarith

/-- C1, witness: for the sequence `[1]` (extent 0 ≤ N) the width at
`PAD = 2` is at most the width at `PAD = 5`. -/
theorem C1_pad_monotone_witness :
    (chooseCanvasSize {defaultConfig with PAD := 2} [1]).width ≤
      (chooseCanvasSize {defaultConfig with PAD := 5} [1]).width :=
  C1_pad_monotone_amended defaultConfig 2 5 [1] (by decide) (by norm_num)
    (by norm_num [defaultConfig_N]) (by norm_num [defaultConfig_H, defaultConfig_margin])
    (by norm_num [spanX_default_one]) (by norm_num [spanX_default_one, defaultConfig_N])

/-- C2, counterexample.  The claim asserts a quadratic segment with control
`p_i` and endpoint `midpoint(p_i, p_{i+1})` for EVERY consecutive pair except
the last.  For the three mapped points of `[1, 2, 3]` the pair
`(p_0, p_1)` is not the last pair, yet the rendered path (whose smoothing
loop starts at index 1) contains no segment with control `p_0 = (76, 89)`
and endpoint `midpoint(p_0, p_1)`. -/
theorem C2_counterexample :
    2 ≤ ([1, 2, 3] : List ℤ).length ∧
    (pointsOf defaultConfig 256 [1, 2, 3]).getD 0 ⟨0, 0⟩ = ⟨76, 89⟩ ∧
    (pointsOf defaultConfig 256 [1, 2, 3]).getD 1 ⟨0, 0⟩ = ⟨217/2, 89⟩ ∧
    ¬ Seg.quad ⟨76, 89⟩ (mid ⟨76, 89⟩ ⟨217/2, 89⟩) ∈
        pathOf defaultConfig 256 [1, 2, 3] := by
  refine ⟨by decide, ?_, ?_, ?_⟩
  · norm_num [pointsOf, mapWithIndex, xSym, stepOf, spanX_default_123,
      rc_default_one, defaultConfig_N, defaultConfig_PAD, defaultConfig_shift,
      defaultConfig_margin]
  · norm_num [pointsOf, mapWithIndex, xSym, stepOf, spanX_default_123,
      rc_default_one, rc_default_two, defaultConfig_N, defaultConfig_PAD,
      defaultConfig_shift, defaultConfig_margin]
  · norm_num [pathOf, buildPathPts, midSegs, pointsOf, mapWithIndex, xSym,
      stepOf, spanX_default_123, rc_default_one, rc_default_two,
      rc_default_three, mid, defaultConfig_N, defaultConfig_PAD,
      defaultConfig_shift, defaultConfig_margin]
    exact fun hq => Seg.noConfusion hq

/-- C2, amended.  For every list of n ≥ 2 mapped points the rendered path
starts at point 0; for every consecutive pair `(p_i, p_{i+1})` except the
FIRST pair and the last pair (0-based `1 ≤ i ≤ n - 3`) it contains a
quadratic segment with control `p_i` and endpoint
`midpoint(p_i, p_{i+1})`; the final segment uses the second-to-last point as
control and the last point as endpoint, so the path terminates exactly at the
last mapped point; in total the path consists of one move command plus
`max(1, n - 2)` quadratic segments. -/
theorem C2_path_structure_amended (cfg : Config) (h : ℚ) (seq : List ℤ)
    (h2 : 2 ≤ seq.length) :
    (pathOf cfg h seq).head? =
      some (Seg.move ((pointsOf cfg h seq).getD 0 ⟨0, 0⟩)) ∧
    (∀ i, 1 ≤ i → i + 2 < seq.length →
      Seg.quad ((pointsOf cfg h seq).getD i ⟨0, 0⟩)
          (mid ((pointsOf cfg h seq).getD i ⟨0, 0⟩)
            ((pointsOf cfg h seq).getD (i + 1) ⟨0, 0⟩)) ∈
        pathOf cfg h seq) ∧
    (pathOf cfg h seq).getLast? =
      some (Seg.quad ((pointsOf cfg h seq).getD (seq.length - 2) ⟨0, 0⟩)
        ((pointsOf cfg h seq).getD (seq.length - 1) ⟨0, 0⟩)) ∧
    (pathOf cfg h seq).length = max 2 (seq.length - 1) := by
  have hlen : (pointsOf cfg h seq).length = seq.length :=
    mapWithIndex_length _ 0 seq
  have hguard : ¬ seq.length < 2 := by omega
  refine ⟨?_, ?_, ?_, ?_⟩
  · rw [pathOf_eq cfg h seq hguard]
    rfl
  · intro i hi1 hi2
    rw [pathOf_eq cfg h seq hguard, buildPathPts]
    refine List.mem_cons_of_mem _ (List.mem_append_left _ ?_)
    rw [midSegs]
    exact List.mem_map.2 ⟨i, List.mem_range'_1.2 ⟨hi1, by omega⟩, rfl⟩
  · rw [pathOf_eq cfg h seq hguard, buildPathPts,
      getLast_cons_append_singleton, hlen]
  · rw [pathOf_eq cfg h seq hguard, buildPathPts]
    simp only [List.length_cons, List.length_append, List.length_map,
      List.length_range', midSegs, List.length_nil]
    omega

/-- C2, witness: the path over the four mapped points of `[1, 2, 3, 4]`
consists of three commands (one move plus `max(1, 4 - 2)` quadratics). -/
theorem C2_path_structure_witness :
    (pathOf defaultConfig 256 [1, 2, 3, 4]).length = 3 := by
  have h := C2_path_structure_amended defaultConfig 256 [1, 2, 3, 4] (by decide)
  rw [h.2.2.2]
  decide

/-- C3, counterexample.  For the sequence `[1, 1]` the single quadratic
segment of the rendered path has control point `(76, 89)`, which is the
FIRST mapped point, not the second mapped point `(82.5, 89)` asserted by the
claim. -/
theorem C3_counterexample :
    pathOf defaultConfig 256 [1, 1] =
      [Seg.move ⟨76, 89⟩, Seg.quad ⟨76, 89⟩ ⟨165/2, 89⟩] ∧
    (pointsOf defaultConfig 256 [1, 1]).getD 1 ⟨0, 0⟩ = ⟨165/2, 89⟩ ∧
    ¬ (⟨76, 89⟩ : Point) = ⟨165/2, 89⟩ := by
  refine ⟨?_, ?_, ?_⟩
  · norm_num [pathOf, buildPathPts, midSegs, pointsOf, mapWithIndex, xSym,
      stepOf, spanX_default_oneone, rc_default_one, defaultConfig_N,
      defaultConfig_PAD, defaultConfig_shift, defaultConfig_margin]
  · norm_num [pointsOf, mapWithIndex, xSym, stepOf, spanX_default_oneone,
      rc_default_one, defaultConfig_N, defaultConfig_PAD,
      defaultConfig_shift, defaultConfig_margin]
  · intro hq
    have := congrArg Point.x hq
    norm_num at this

/-- C3, amended.  For `[1, 1]` with `N = 4` and the default configuration,
both symbols decode to row 0, column 0; the grid-unit x-values are 0.75 and
1.0 with span `{0.75, 1.0}`; the 2-point path is one quadratic segment whose
control point equals the FIRST mapped point `(76, 89)` and whose endpoint
equals the SECOND mapped point `(82.5, 89)` — a degenerate straight segment —
and it renders without error. -/
theorem C3_scenario_amended :
    rc defaultConfig 1 = ⟨0, 0⟩ ∧
    xsOf defaultConfig [1, 1] = [3/4, 1] ∧
    spanX defaultConfig [1, 1] = (3/4, 1) ∧
    (pointsOf defaultConfig 256 [1, 1]).getD 0 ⟨0, 0⟩ = ⟨76, 89⟩ ∧
    (pointsOf defaultConfig 256 [1, 1]).getD 1 ⟨0, 0⟩ = ⟨165/2, 89⟩ ∧
    pathOf defaultConfig 256 [1, 1] =
      [Seg.move ⟨76, 89⟩, Seg.quad ⟨76, 89⟩ ⟨165/2, 89⟩] := by
  refine ⟨rc_default_one, ?_, spanX_default_oneone, ?_, ?_, ?_⟩
  · norm_num [xsOf, mapWithIndex, xSym, rc_default_one, defaultConfig_shift]
  · norm_num [pointsOf, mapWithIndex, xSym, stepOf, spanX_default_oneone,
      rc_default_one, defaultConfig_N, defaultConfig_PAD,
      defaultConfig_shift, defaultConfig_margin]
  · norm_num [pointsOf, mapWithIndex, xSym, stepOf, spanX_default_oneone,
      rc_default_one, defaultConfig_N, defaultConfig_PAD,
      defaultConfig_shift, defaultConfig_margin]
  · norm_num [pathOf, buildPathPts, midSegs, pointsOf, mapWithIndex, xSym,
      stepOf, spanX_default_oneone, rc_default_one, defaultConfig_N,
      defaultConfig_PAD, defaultConfig_shift, defaultConfig_margin]

/-- C9: for every sequence of length ≥ 2 (under the spec's standing
assumptions on the configuration: positive grid size, non-negative pad,
non-negative interior height), the minimum x-coordinate over the mapped
points is exactly `PIXEL_MARGIN + step * PAD`, independent of sequence
content and shift, because the span minimum is computed with the identical
per-point formula. -/
theorem C9_leftmost_point (cfg : Config) (seq : List ℤ)
    (h2 : 2 ≤ seq.length) (hN : 0 < cfg.N) (hPAD : 0 ≤ cfg.PAD)
    (hI : 2 * cfg.PIXEL_MARGIN ≤ cfg.H_FIXED) :
    ((pointsOf cfg cfg.H_FIXED seq).map Point.x).minimum =
      ((cfg.PIXEL_MARGIN + stepOf cfg cfg.H_FIXED * cfg.PAD : ℚ) :
        WithTop ℚ) := by
  have hne : seq ≠ [] := by
    intro h
    rw [h] at h2
    simp at h2
  have hNq : (0 : ℚ) < (cfg.N : ℚ) := by exact_mod_cast hN
  have hstep : 0 ≤ stepOf cfg cfg.H_FIXED := by
    apply div_nonneg (by linarith)
    linarith
  obtain ⟨⟨hmem, hlb⟩, _⟩ := spanX_spec cfg seq hne
  rw [pointsOf_map_x]
  apply List.minimum_eq_coe_iff.2
  constructor
  · refine List.mem_map.2 ⟨(spanX cfg seq).1, hmem, ?_⟩
    rw [sub_self, zero_add]
  · intro b hb
    obtain ⟨v, hv, rfl⟩ := List.mem_map.1 hb
    have hles := hlb v hv
    have harg : (spanX cfg seq).1 - (spanX cfg seq).1 + cfg.PAD ≤
        v - (spanX cfg seq).1 + cfg.PAD := by linarith
    have := mul_le_mul_of_nonneg_left harg hstep
    rw [sub_self, zero_add] at this
    linarith

/-- C9, witness: for the sequence `[1, 2]` with the default configuration
the minimum mapped x-coordinate is 76 = 24 + 26 · 2. -/
theorem C9_leftmost_witness :
    ((pointsOf defaultConfig defaultConfig.H_FIXED [1, 2]).map
        Point.x).minimum = ((76 : ℚ) : WithTop ℚ) := by
  have h := C9_leftmost_point defaultConfig [1, 2] (by decide) (by decide)
    (by norm_num [defaultConfig_PAD])
    (by norm_num [defaultConfig_H, defaultConfig_margin])
  rw [h]
  norm_num [stepOf, defaultConfig_N, defaultConfig_PAD, defaultConfig_H,
    defaultConfig_margin]

/-- Non-negative integers are not shrunk by flooring after scaling by a
factor of at least one. -/
lemma le_floor_mul_self (w : ℤ) (d : ℚ) (hw : 0 ≤ w) (hd : 1 ≤ d) :
    w ≤ ⌊(w : ℚ) * d⌋ :=
  Int.le_floor.2 (le_mul_of_one_le_right (by exact_mod_cast hw) hd)

/-- C10: the device scale factor is at least 1 for every host-reported
ratio (including a missing report and a report below 1), and — under the
spec's standing assumptions on the configuration (non-negative margin,
non-negative interior height, positive grid size, non-negative pad,
whole-pixel fixed height) — the backing-store resolution
`floor(width·dpr) × floor(height·dpr)` of a render is never smaller than the
logical size. -/
theorem C10_dpr_floor (cfg : Config) (seq : List ℤ) (hostDPR : Option ℚ)
    (hm : 0 ≤ cfg.PIXEL_MARGIN) (hI : 2 * cfg.PIXEL_MARGIN ≤ cfg.H_FIXED)
    (hN : 0 < cfg.N) (hPAD : 0 ≤ cfg.PAD)
    (hk : ∃ k : ℤ, cfg.H_FIXED = (k : ℚ)) :
    1 ≤ syncDPR hostDPR ∧
    1 ≤ (renderFull cfg seq hostDPR).surface.transform ∧
    (renderFull cfg seq hostDPR).state.width ≤
      (renderFull cfg seq hostDPR).surface.backingWidth ∧
    (renderFull cfg seq hostDPR).state.height ≤
      ((renderFull cfg seq hostDPR).surface.backingHeight : ℚ) := by
  have hdpr : 1 ≤ syncDPR hostDPR := le_max_left _ _
  have hNq : (0 : ℚ) < (cfg.N : ℚ) := by exact_mod_cast hN
  have hstep : 0 ≤ stepOf cfg cfg.H_FIXED := by
    apply div_nonneg (by linarith)
    linarith
  have hss : (0 : ℚ) ≤ symSpanXOf cfg seq := by
    unfold symSpanXOf
    exact le_trans (by norm_num) (le_max_left _ _)
  have hW0 : (0 : ℤ) ≤ (chooseCanvasSize cfg seq).width := by
    apply Int.ceil_nonneg
    have h1 : 0 ≤ stepOf cfg cfg.H_FIXED * symSpanXOf cfg seq :=
      mul_nonneg hstep hss
    linarith
  obtain ⟨k, hkeq⟩ := hk
  have hH0 : (0 : ℚ) ≤ cfg.H_FIXED := by linarith
  have hk0 : (0 : ℤ) ≤ k := by
    rw [hkeq] at hH0
    exact_mod_cast hH0
  refine ⟨hdpr, hdpr, ?_, ?_⟩
  · exact le_floor_mul_self _ _ hW0 hdpr
  · show cfg.H_FIXED ≤ (⌊cfg.H_FIXED * syncDPR hostDPR⌋ : ℚ)
    rw [hkeq]
    exact_mod_cast le_floor_mul_self k _ hk0 hdpr

/-- C10, witness: a host-reported ratio of 1/2 is clamped to 1, and for the
default configuration with sequence `[1]` the backing-store width is at
least the logical width. -/
theorem C10_dpr_witness :
    1 ≤ syncDPR (some (1/2)) ∧
    (renderFull defaultConfig [1] (some (1/2))).state.width ≤
      (renderFull defaultConfig [1] (some (1/2))).surface.backingWidth := by
  have h := C10_dpr_floor defaultConfig [1] (some (1/2))
    (by norm_num [defaultConfig_margin])
    (by norm_num [defaultConfig_H, defaultConfig_margin]) (by decide)
    (by norm_num [defaultConfig_PAD]) ⟨256, by norm_num [defaultConfig_H]⟩
  exact ⟨h.1, h.2.2.1⟩

end QAM
